import Mathlib

/-!
Shallow embedding of `src/dVsmall5pro.py` (batch video converter).

Python strings are modelled as `List Char`; Python floats as exact
rationals (`ℚ`); raised exceptions as `Except PyErr`.  Paths follow
POSIX semantics (separator `'/'`); `os.path` helpers (`basename`,
`splitext`, `join`) and the fragments of Python semantics the script
relies on (`str.strip`, `float(...)`, `str.split(':')`,
`str.lower().endswith(...)`, `re.search` with the script's pattern)
are embedded below.  External subprocess calls are modelled by their
observable behaviour: an `ffprobe` run is `Option (Int × List Char)`
(`none` = binary missing, i.e. `FileNotFoundError`; otherwise return
code and stdout), and an `ffmpeg` run is its stderr line list plus
exit code.
-/

set_option maxRecDepth 4096

namespace VideoDeal

attribute [local semireducible] Rat.add Rat.mul Rat.sub Rat.inv

/-- Python strings, modelled as lists of characters. -/
abbrev PyStr := List Char

/-- Exceptions the script can raise and catch. -/
inductive PyErr where
  | valueError
  | fileNotFound
deriving DecidableEq, Repr

/-- Value of a list of decimal digit characters. -/
def natOfDigits (ds : PyStr) : Nat :=
  ds.foldl (fun acc c => 10 * acc + (c.toNat - 48)) 0

/-- ASCII whitespace, as stripped by Python's `str.strip()`. -/
def isPyWS (c : Char) : Bool :=
  c = ' ' || c = '\t' || c = '\n' || c = '\r' || c = '\x0b' || c = '\x0c'

/-- Python's `str.strip()` restricted to ASCII whitespace. -/
def pyStrip (cs : PyStr) : PyStr :=
  ((cs.dropWhile isPyWS).reverse.dropWhile isPyWS).reverse

/-- Python's numeric digit-group lexeme `digit (["_"] digit)*`: a run of
digits in which single underscores may separate digits.  Returns the
digits (underscores removed) and the unconsumed rest, or `none` when the
input does not start with a digit or an underscore is not followed by a
digit.  Fuelled; `digitRun` supplies sufficient fuel. -/
def digitRunAux : Nat → PyStr → Option (PyStr × PyStr)
  | 0, _ => none
  | fuel + 1, cs =>
    let ds := cs.takeWhile Char.isDigit
    let rest := cs.dropWhile Char.isDigit
    if ds.isEmpty then none
    else
      match rest with
      | '_' :: r =>
        match digitRunAux fuel r with
        | some (ds2, rest2) => some (ds ++ ds2, rest2)
        | none => none
      | _ => some (ds, rest)

/-- Python digit group with sufficient fuel. -/
def digitRun (cs : PyStr) : Option (PyStr × PyStr) :=
  digitRunAux (cs.length + 1) cs

/-- Python's `float(s)` on finite decimal/scientific literals, as an exact
rational: optional surrounding whitespace, optional sign, an integer
part and/or a fraction, and an optional exponent.  `none` models a
raised `ValueError`.  (The non-finite literals `inf`/`nan` are outside
the model; no value the script manipulates is non-finite.) -/
def pyFloat? (cs0 : PyStr) : Option ℚ :=
  let cs := pyStrip cs0
  let sgncs : ℚ × PyStr :=
    match cs with
    | '+' :: r => (1, r)
    | '-' :: r => (-1, r)
    | r => (1, r)
  let sgn := sgncs.1
  let intPart : Option PyStr × PyStr :=
    match digitRun sgncs.2 with
    | some (ds, r) => (some ds, r)
    | none => (none, sgncs.2)
  let fracPart : Option PyStr × PyStr :=
    match intPart.2 with
    | '.' :: r =>
      match digitRun r with
      | some (ds, r2) => (some ds, r2)
      | none => (some [], r)
    | r => (none, r)
  let hasDigits : Bool :=
    intPart.1.isSome || !(fracPart.1.getD []).isEmpty
  let expPart : Option (Int × PyStr) :=
    match fracPart.2 with
    | c :: r =>
      if c = 'e' || c = 'E' then
        let esgn : Int × PyStr :=
          match r with
          | '+' :: rr => (1, rr)
          | '-' :: rr => (-1, rr)
          | rr => (1, rr)
        match digitRun esgn.2 with
        | some (ds, r2) => some (esgn.1 * (natOfDigits ds : Int), r2)
        | none => none
      else some (0, c :: r)
    | [] => some (0, [])
  match expPart with
  | none => none
  | some (e, rest) =>
    if rest.isEmpty && hasDigits then
      let iv : ℚ := (natOfDigits (intPart.1.getD []) : ℚ)
      let fds := fracPart.1.getD []
      let fv : ℚ := (natOfDigits fds : ℚ) / (10 : ℚ) ^ fds.length
      some (sgn * (iv + fv) * (10 : ℚ) ^ e)
    else none

/-- Python's `str.lower()` on the ASCII range (the only range the
extension filter uses). -/
def pyLower (cs : PyStr) : PyStr := cs.map Char.toLower

/-! ### POSIX path helpers (`os.path`) -/

/-- Characters after the last separator: `os.path.basename`. -/
def pyBasename (p : PyStr) : PyStr :=
  ((p.reverse.takeWhile (fun c => c != '/'))).reverse

/-- Everything up to and including the last separator. -/
def pyDirpart (p : PyStr) : PyStr :=
  ((p.reverse.dropWhile (fun c => c != '/'))).reverse

/-- Stem of a separator-free filename, per `os.path.splitext`: cut at the
last dot provided some non-dot character precedes it (so leading dots
of a hidden file never start an extension). -/
def splitextBase (b : PyStr) : PyStr :=
  if (b.reverse.takeWhile (fun c => c != '.')).length = b.reverse.length then b
  else if (b.reverse.drop ((b.reverse.takeWhile (fun c => c != '.')).length + 1)).any
      (fun c => c != '.') then
    ((b.reverse.drop ((b.reverse.takeWhile (fun c => c != '.')).length + 1))).reverse
  else b

/-- First component of `os.path.splitext` on a full path: the extension
split only ever touches the part after the last separator. -/
def pySplitextFst (p : PyStr) : PyStr :=
  pyDirpart p ++ splitextBase (pyBasename p)

/-- The `posixpath.join` of two components. -/
def pyJoin (a b : PyStr) : PyStr :=
  if b.head? = some '/' then b
  else if a.isEmpty || a.getLast? = some '/' then a ++ b
  else a ++ '/' :: b

/-! ### The script's progress-line parser

The script tests `"time=" in line` and then runs
`re.search(r"time=(\d+:\d+:\d+.\d+)", line)`.  Note the unescaped dot in
the pattern: it matches any character except a newline.  The embedding
follows Python's leftmost-match, greedy-with-backtracking semantics for
this concrete pattern. -/

/-- Python's `"time=" in line` substring test. -/
def hasTimeTok : PyStr → Bool
  | 't' :: 'i' :: 'm' :: 'e' :: '=' :: _ => true
  | _ :: rest => hasTimeTok rest
  | [] => false

/-- Maximal run of leading digits. -/
def takeDigits (cs : PyStr) : PyStr := cs.takeWhile Char.isDigit

/-- Match the regex fragment `.\d+` at the given position: one character
other than a newline (the pattern's unescaped dot), then a maximal
nonempty digit run (the final `\d+` is greedy and nothing follows it).
Returns the consumed characters. -/
def matchDotDigits : PyStr → Option PyStr
  | [] => none
  | c :: rest =>
    if c = '\n' then none
    else
      let ds := takeDigits rest
      if ds.isEmpty then none else some (c :: ds)

/-- Match the regex fragment `\d+.\d+` at the given position.  The first
`\d+` is greedy with backtracking: `k` counts how many leading digits it
currently holds, starting from the maximal run and giving digits back
one at a time until `.\d+` matches the rest. -/
def tryThirdAux (cs : PyStr) : Nat → Option PyStr
  | 0 => none
  | k + 1 =>
    match matchDotDigits (cs.drop (k + 1)) with
    | some tail => some (cs.take (k + 1) ++ tail)
    | none => tryThirdAux cs k

/-- Match the regex fragment `\d+.\d+` starting from the maximal digit
run. -/
def tryThird (cs : PyStr) : Option PyStr :=
  tryThirdAux cs (takeDigits cs).length

/-- Match the regex fragment `\d+:` at the given position.  A maximal
digit run followed by `':'`; no backtracking can help, since any shorter
digit run is followed by a digit, not a colon. -/
def matchDigitsColon (cs : PyStr) : Option (PyStr × PyStr) :=
  let ds := takeDigits cs
  if ds.isEmpty then none
  else
    match cs.drop ds.length with
    | ':' :: rest => some (ds ++ [':'], rest)
    | _ => none

/-- Match the whole capture group `\d+:\d+:\d+.\d+` at the given
position; returns the captured characters. -/
def matchTimeGroup (cs : PyStr) : Option PyStr :=
  match matchDigitsColon cs with
  | none => none
  | some (p1, r1) =>
    match matchDigitsColon r1 with
    | none => none
    | some (p2, r2) =>
      match tryThird r2 with
      | some p3 => some (p1 ++ p2 ++ p3)
      | none => none

/-- Try the full pattern `time=(\d+:\d+:\d+.\d+)` at the given
position. -/
def matchTimeAt : PyStr → Option PyStr
  | 't' :: 'i' :: 'm' :: 'e' :: '=' :: r => matchTimeGroup r
  | _ => none

/-- The `re.search` of the script's pattern: the leftmost position at
which the whole pattern matches, returning the capture group. -/
def searchTime : PyStr → Option PyStr
  | [] => none
  | c :: rest =>
    match matchTimeAt (c :: rest) with
    | some g => some g
    | none => searchTime rest

/-- The script's `h, m, s = map(float, time_str.split(':'))` followed by
`h * 3600 + m * 60 + s`.  Raises `ValueError` when a piece is not a
float literal or the split does not have exactly three pieces. -/
def parseTimeStr (ts : PyStr) : Except PyErr ℚ :=
  match (ts.splitOn ':').mapM pyFloat? with
  | none => .error .valueError
  | some [h, m, s] => .ok (h * 3600 + m * 60 + s)
  | some _ => .error .valueError

/-- What one iteration of the stderr-reading loop does with a line. -/
inductive LineEffect where
  | skip
  | update (t : ℚ)
  | raise
deriving DecidableEq, Repr

/-- Effect of one stderr line in the loop body shared by `copy_video`
and `compress_video`: lines without a `time=` token, and lines whose
`time=` is not followed by a pattern match, are skipped; a match is
split and converted, which can itself raise. -/
def lineEffect (line : PyStr) : LineEffect :=
  if hasTimeTok line then
    match searchTime line with
    | none => .skip
    | some ts =>
      match parseTimeStr ts with
      | .error _ => .raise
      | .ok t => .update t
  else .skip

/-- The stderr loop: the tqdm bar's count `n` starts at `0`; a parsed
time `t` triggers `progress.update(t - n)`, i.e. `n` becomes
`n + (t - n)`.  Returns the final count, or the raised exception. -/
def progressLoop (n : ℚ) : List PyStr → Except PyErr ℚ
  | [] => .ok n
  | line :: rest =>
    match lineEffect line with
    | .skip => progressLoop n rest
    | .update t => progressLoop (n + (t - n)) rest
    | .raise => .error .valueError

/-- The successive values of the tqdm bar's count after each
`progress.update` call (the totals reported to the progress sink); a
raised exception ends the loop. -/
def progressTotals (n : ℚ) : List PyStr → List ℚ
  | [] => []
  | line :: rest =>
    match lineEffect line with
    | .skip => progressTotals n rest
    | .update t => (n + (t - n)) :: progressTotals (n + (t - n)) rest
    | .raise => []

/-- The parsed timestamps of the lines that reach `progress.update`, in
order, cut off at the first line that raises. -/
def parsedTimes : List PyStr → List ℚ
  | [] => []
  | line :: rest =>
    match lineEffect line with
    | .skip => parsedTimes rest
    | .update t => t :: parsedTimes rest
    | .raise => []

/-! ### The per-task and batch model -/

/-- Which conversion routine a task runs. -/
inductive Mode where
  | copy
  | compress
deriving DecidableEq, Repr

/-- Observable behaviour of the external processes one task touches:
each `ffprobe` invocation is `none` when the binary is missing
(`FileNotFoundError` from `subprocess.run`) or `some` of its return
code and stdout; the `ffmpeg` invocation is `none` when the binary is
missing (`FileNotFoundError` from `Popen`) or `some` of its stderr
lines and exit code. -/
structure TaskEnv where
  bitrateRun : Option (Int × PyStr)
  durationRun : Option (Int × PyStr)
  encoderRun : Option (List PyStr × Int)
deriving DecidableEq, Repr

/-- Shared shape of both probes: `float(result.stdout.strip())`.  The
return code of the probe subprocess is never consulted. -/
def probeFloat (run : Option (Int × PyStr)) : Except PyErr ℚ :=
  match run with
  | none => .error .fileNotFound
  | some (_, out) =>
    match pyFloat? (pyStrip out) with
    | none => .error .valueError
    | some v => .ok v

/-- The script's `get_video_duration`. -/
def get_video_duration (env : TaskEnv) : Except PyErr ℚ :=
  probeFloat env.durationRun

/-- The script's `get_video_bitrate` (the parsed value divided by 1000,
giving kbps). -/
def get_video_bitrate (env : TaskEnv) : Except PyErr ℚ :=
  match probeFloat env.bitrateRun with
  | .error e => .error e
  | .ok v => .ok (v / 1000)

/-- The script's `copy_video`, with the per-file tqdm bar elided (its
`total` is never read back): launch `ffmpeg` (`Popen` raises when the
binary is missing), probe the duration, run the stderr loop, then
`communicate()` — which waits but whose exit code is never checked —
and finally `pbar.update(1)`.  Returns (outcome, whether the encoder
process was launched, number of `pbar.update(1)` calls). -/
def copy_video (env : TaskEnv) : Except PyErr Unit × Bool × Nat :=
  match env.encoderRun with
  | none => (.error .fileNotFound, false, 0)
  | some (lines, _exitCode) =>
    match get_video_duration env with
    | .error e => (.error e, true, 0)
    | .ok _total =>
      match progressLoop 0 lines with
      | .error e => (.error e, true, 0)
      | .ok _ => (.ok (), true, 1)

/-- The script's `compress_video`: identical process lifecycle to
`copy_video` (the two differ only in the ffmpeg argument list, where
`use_gpu` selects `h264_nvenc` over `libx264`). -/
def compress_video (env : TaskEnv) : Except PyErr Unit × Bool × Nat :=
  match env.encoderRun with
  | none => (.error .fileNotFound, false, 0)
  | some (lines, _exitCode) =>
    match get_video_duration env with
    | .error e => (.error e, true, 0)
    | .ok _total =>
      match progressLoop 0 lines with
      | .error e => (.error e, true, 0)
      | .ok _ => (.ok (), true, 1)

deriving instance DecidableEq for Except

/-- Observable outcome of one task. -/
structure TaskResult where
  outcome : Except PyErr Unit
  branch : Option Mode
  launched : Bool
  deltaCount : Nat
deriving DecidableEq, Repr

/-- The script's `copy_or_compress_video`: probe the bitrate, pick the
routine by the `bitrate <= 1000` test, and run it. -/
def copy_or_compress_video (env : TaskEnv) : TaskResult :=
  match get_video_bitrate env with
  | .error e => ⟨.error e, none, false, 0⟩
  | .ok bitrate =>
    if bitrate ≤ 1000 then
      let r := copy_video env
      ⟨r.1, some Mode.copy, r.2.1, r.2.2⟩
    else
      let r := compress_video env
      ⟨r.1, some Mode.compress, r.2.1, r.2.2⟩

/-- Boolean success test on a task outcome. -/
def exOk : Except PyErr Unit → Bool
  | .ok _ => true
  | .error _ => false

/-- The script's `process_videos`, sequentially rendering the
thread-pool batch: the shared tqdm counter starts at `0` and each task
adds its own `pbar.update(1)` calls; each `future.result()` exception is
caught and printed, the printed errors collected in order.  Returns the
final counter value and the error list. -/
def process_videos : List TaskEnv → Nat × List PyErr
  | [] => (0, [])
  | env :: rest =>
    let r := copy_or_compress_video env
    let acc := process_videos rest
    (r.deltaCount + acc.1,
      (match r.outcome with
       | .error e => [e]
       | .ok _ => []) ++ acc.2)

/-- Output-path derivation of `process_videos` (line 105 of the
source): `os.path.join(output_dir,
os.path.basename(os.path.splitext(file)[0] + "_s.mp4"))`, applied to
the absolute input path. -/
def output_file_for (output_dir file : PyStr) : PyStr :=
  pyJoin output_dir (pyBasename (pySplitextFst file ++ ("_s.mp4").data))

/-- The recognised video extensions of `get_all_files`. -/
def videoExtensions : List PyStr :=
  [(".mp4").data, (".avi").data, (".mov").data, (".mkv").data, (".ts").data]

/-- The filter of `get_all_files`:
`filename.lower().endswith(extensions)` — `endswith` on a tuple
succeeds when any listed suffix matches. -/
def lowerEndsWithVideoExt (name : PyStr) : Bool :=
  videoExtensions.any (fun e => e.isSuffixOf (pyLower name))

/-- The script's `get_all_files`, over the result of the `os.walk`
collaborator (a list of `(root, filenames)` pairs): for each directory
in walk order, append `os.path.join(root, filename)` for every filename
passing the extension filter. -/
def get_all_files (walk : List (PyStr × List PyStr)) : List PyStr :=
  walk.flatMap (fun rd => (rd.2.filter lowerEndsWithVideoExt).map (pyJoin rd.1))

/-! ### Concrete inputs used by counterexamples and witnesses -/

/-- A well-formed ffmpeg progress line reporting ten seconds. -/
def lineTenSec : PyStr := ("time=00:00:10.00 bitrate= 128.0kbits/s\n").data

/-- A well-formed ffmpeg progress line reporting five seconds. -/
def lineFiveSec : PyStr := ("time=00:00:05.00 bitrate= 128.0kbits/s\n").data

/-- A malformed progress line: the pattern's unescaped dot matches the
third colon, so the capture is `00:00:01:50`, which splits into four
pieces. -/
def badTimeLine : PyStr := ("time=00:00:01:50\n").data

/-- A task whose bitrate probe prints non-numeric stdout (`N/A`). -/
def envProbeFail : TaskEnv :=
  ⟨some (0, ("N/A").data), some (0, ("60").data), some ([], 0)⟩

/-- A task whose probes succeed (500 kbps, 60 s) but whose encoder
process exits with code 1. -/
def envExitOne : TaskEnv :=
  ⟨some (0, ("500000").data), some (0, ("60").data), some ([], 1)⟩

/-- A task probed at exactly 1000 kbps. -/
def envCopy1000 : TaskEnv :=
  ⟨some (0, ("1000000").data), some (0, ("60").data), some ([], 0)⟩

/-- A task probed at 5000 kbps. -/
def envCompress5000 : TaskEnv :=
  ⟨some (0, ("5000000").data), some (0, ("60").data), some ([], 0)⟩

/-- A healthy task whose encoder emits the malformed line
`badTimeLine`. -/
def envBadLine : TaskEnv :=
  ⟨some (0, ("500000").data), some (0, ("60").data), some ([badTimeLine], 0)⟩

/-- A task whose bitrate probe exits with code 1 yet prints a numeric
value. -/
def envRcOne : TaskEnv :=
  ⟨some (1, ("500000").data), some (0, ("60").data), some ([], 0)⟩

/-! ### Shared helper lemmas -/

theorem takeWhile_append_all {α : Type} {p : α → Bool} {l₁ : List α} (l₂ : List α)
    (h : ∀ c ∈ l₁, p c = true) :
    (l₁ ++ l₂).takeWhile p = l₁ ++ l₂.takeWhile p := by
  induction l₁ with
  | nil => simp
  | cons a t ih =>
    have ha := h a (by simp)
    simp [List.takeWhile_cons, ha, ih (fun c hc => h c (by simp [hc]))]

theorem mem_takeWhile_pred {α : Type} {p : α → Bool} :
    ∀ {l : List α} {x : α}, x ∈ l.takeWhile p → p x = true
  | [], _, h => by simp [List.takeWhile] at h
  | a :: t, x, h => by
    rw [List.takeWhile_cons] at h
    by_cases hp : p a
    · simp only [hp, if_true] at h
      rcases List.mem_cons.mp h with h | h
      · subst h; exact hp
      · exact mem_takeWhile_pred h
    · simp [hp] at h

theorem dropWhile_head_not {α : Type} {p : α → Bool} :
    ∀ (l : List α) (a : α) (t : List α), l.dropWhile p = a :: t → p a = false
  | [], a, t, h => by simp [List.dropWhile] at h
  | x :: xs, a, t, h => by
    by_cases hx : p x
    · rw [List.dropWhile_cons_of_pos hx] at h
      exact dropWhile_head_not xs a t h
    · rw [List.dropWhile_cons_of_neg hx] at h
      cases h
      simpa using hx

theorem pyBasename_append_nosep (d y : PyStr)
    (hy : ∀ c ∈ y, (c != '/') = true)
    (hd : d = [] ∨ d.getLast? = some '/') :
    pyBasename (d ++ y) = y := by
  unfold pyBasename
  rw [List.reverse_append,
    takeWhile_append_all _ (fun c hc => hy c (List.mem_reverse.mp hc))]
  have hnil : d.reverse.takeWhile (fun c => c != '/') = [] := by
    rcases hd with h | h
    · simp [h]
    · have hh : d.reverse.head? = some '/' := by rw [List.head?_reverse]; exact h
      cases hr : d.reverse with
      | nil => rfl
      | cons a t =>
        rw [hr] at hh
        simp only [List.head?_cons, Option.some.injEq] at hh
        subst hh
        simp [List.takeWhile_cons]
  rw [hnil, List.append_nil, List.reverse_reverse]

theorem pyBasename_nosep (p : PyStr) : ∀ c ∈ pyBasename p, (c != '/') = true := by
  intro c hc
  unfold pyBasename at hc
  rw [List.mem_reverse] at hc
  have := @mem_takeWhile_pred Char (fun c => c != '/') (List.reverse p) c hc
  simpa using this

theorem pyDirpart_cases (p : PyStr) :
    pyDirpart p = [] ∨ (pyDirpart p).getLast? = some '/' := by
  unfold pyDirpart
  cases hr : p.reverse.dropWhile (fun c => c != '/') with
  | nil => left; rfl
  | cons a t =>
    right
    have ha := @dropWhile_head_not Char (fun c => c != '/') (List.reverse p) a t hr
    have ha' : a = '/' := by simpa using ha
    rw [List.getLast?_reverse, List.head?_cons, ha']

theorem dirpart_append_basename (p : PyStr) : pyDirpart p ++ pyBasename p = p := by
  unfold pyDirpart pyBasename
  rw [← List.reverse_append, List.takeWhile_append_dropWhile, List.reverse_reverse]

theorem splitextBase_nosep (b : PyStr) (hb : ∀ c ∈ b, (c != '/') = true) :
    ∀ c ∈ splitextBase b, (c != '/') = true := by
  intro c hc
  unfold splitextBase at hc
  split at hc
  · exact hb c hc
  · split at hc
    · rw [List.mem_reverse] at hc
      exact hb c (List.mem_reverse.mp (List.mem_of_mem_drop hc))
    · exact hb c hc

theorem pyBasename_join (a y : PyStr) (hy : ∀ c ∈ y, (c != '/') = true) :
    pyBasename (pyJoin a y) = y := by
  unfold pyJoin
  split
  · have := pyBasename_append_nosep [] y hy (Or.inl rfl)
    simpa using this
  · split
    · rename_i h2
      refine pyBasename_append_nosep a y hy ?_
      rcases Bool.or_eq_true_iff.mp h2 with h3 | h3
      · exact Or.inl (List.isEmpty_iff.mp h3)
      · exact Or.inr (of_decide_eq_true h3)
    · have : a ++ '/' :: y = (a ++ ['/']) ++ y := by simp
      rw [this]
      exact pyBasename_append_nosep (a ++ ['/']) y hy
        (Or.inr (List.getLast?_concat a))

theorem splitextBase_s_suffix (sb : PyStr) :
    splitextBase (sb ++ ("_s.mp4").data) = sb ++ ("_s").data := by
  have hrev : (sb ++ ("_s.mp4").data).reverse
      = '4' :: 'p' :: 'm' :: '.' :: 's' :: '_' :: sb.reverse := by
    rw [List.reverse_append]
    rfl
  have hext : List.takeWhile (fun c => c != '.')
      ('4' :: 'p' :: 'm' :: '.' :: 's' :: '_' :: sb.reverse) = ['4', 'p', 'm'] := rfl
  unfold splitextBase
  rw [hrev, hext]
  rw [if_neg (by
    simp only [List.length_cons, List.length_nil, List.length_reverse]
    omega)]
  rw [if_pos (by
    show (List.drop 4 ('4' :: 'p' :: 'm' :: '.' :: 's' :: '_' :: sb.reverse)).any
        (fun c => c != '.') = true
    rfl)]
  show (List.drop 4 ('4' :: 'p' :: 'm' :: '.' :: 's' :: '_' :: sb.reverse)).reverse
      = sb ++ ("_s").data
  simp

theorem copy_video_delta (env : TaskEnv) :
    (copy_video env).2.2 = if exOk (copy_video env).1 then 1 else 0 := by
  unfold copy_video
  cases henc : env.encoderRun with
  | none => rfl
  | some p =>
    obtain ⟨lines, code⟩ := p
    cases hd : get_video_duration env with
    | error e => simp [hd, exOk]
    | ok t =>
      cases hl : progressLoop 0 lines with
      | error e => simp [hd, hl, exOk]
      | ok m => simp [hd, hl, exOk]

theorem compress_video_delta (env : TaskEnv) :
    (compress_video env).2.2 = if exOk (compress_video env).1 then 1 else 0 := by
  unfold compress_video
  cases henc : env.encoderRun with
  | none => rfl
  | some p =>
    obtain ⟨lines, code⟩ := p
    cases hd : get_video_duration env with
    | error e => simp [hd, exOk]
    | ok t =>
      cases hl : progressLoop 0 lines with
      | error e => simp [hd, hl, exOk]
      | ok m => simp [hd, hl, exOk]

theorem delta_eq_ok (env : TaskEnv) :
    (copy_or_compress_video env).deltaCount
      = if exOk (copy_or_compress_video env).outcome then 1 else 0 := by
  unfold copy_or_compress_video
  cases hb : get_video_bitrate env with
  | error e => simp [exOk]
  | ok b =>
    by_cases hle : b ≤ 1000
    · simpa [hle] using copy_video_delta env
    · simpa [hle] using compress_video_delta env

theorem task_of_probe_error (env : TaskEnv) (e : PyErr)
    (h : get_video_bitrate env = Except.error e) :
    copy_or_compress_video env = ⟨Except.error e, none, false, 0⟩ := by
  unfold copy_or_compress_video
  rw [h]

theorem process_videos_append (xs ys : List TaskEnv) :
    process_videos (xs ++ ys)
      = ((process_videos xs).1 + (process_videos ys).1,
         (process_videos xs).2 ++ (process_videos ys).2) := by
  induction xs with
  | nil => simp [process_videos]
  | cons env rest ih =>
    simp only [List.cons_append, process_videos, List.append_eq, ih]
    rw [Prod.mk.injEq]
    exact ⟨by omega, by simp [List.append_assoc]⟩

/-! ### Claims -/

/-- Claim C1, counterexample: fed a ten-second progress line and then a
five-second one, the reported totals are `[10, 5]` — the second update
lowers the reported total, so progress is not clamped to be
monotonically non-decreasing. -/
theorem progress_can_decrease :
    progressTotals 0 [lineTenSec, lineFiveSec] = [10, 5] ∧
    ¬ List.Chain' (fun a b => a ≤ b) (progressTotals 0 [lineTenSec, lineFiveSec]) := by
  have h : progressTotals 0 [lineTenSec, lineFiveSec] = [10, 5] := by decide
  refine ⟨h, ?_⟩
  rw [h, List.chain'_cons]
  intro hc
  have := hc.1
  norm_num at this

/-- Claim C1, amended: the executor passes each parsed timestamp onward
as the delta `t - n`, so the reported total after every update equals
the raw parsed timestamp of that line; nothing is clamped, and the
totals are non-decreasing exactly when the parsed timestamps arrive in
non-decreasing order. -/
theorem progress_totals_are_parsed_times (n : ℚ) (lines : List PyStr) :
    progressTotals n lines = parsedTimes lines := by
  induction lines generalizing n with
  | nil => rfl
  | cons line rest ih =>
    cases h : lineEffect line with
    | skip => simp [progressTotals, parsedTimes, h, ih]
    | update t =>
      simp [progressTotals, parsedTimes, h, ih, show n + (t - n) = t from by ring]
    | raise => simp [progressTotals, parsedTimes, h]

/-- Claim C2, counterexample: a batch of one task whose bitrate probe
fails ends with the completed counter at `0`, not at the number of
attempted files (`1`) — a failing task never reaches its
`pbar.update(1)`. -/
theorem failed_task_not_counted :
    (process_videos [envProbeFail]).1 ≠ [envProbeFail].length := by decide

/-- Claim C2, amended: a task increments the shared counter exactly once
when its conversion routine completes without raising, and not at all
when it fails; consequently the final completed-count equals the number
of successful tasks, not the number of attempted ones. -/
theorem completed_count_counts_successes :
    (∀ env : TaskEnv, (copy_or_compress_video env).deltaCount
        = if exOk (copy_or_compress_video env).outcome then 1 else 0) ∧
    ∀ envs : List TaskEnv, (process_videos envs).1
        = envs.countP (fun env => exOk (copy_or_compress_video env).outcome) := by
  refine ⟨delta_eq_ok, ?_⟩
  intro envs
  induction envs with
  | nil => rfl
  | cons env rest ih =>
    simp only [process_videos, ih, List.countP_cons, delta_eq_ok env]
    cases hx : exOk (copy_or_compress_video env).outcome
    · simp [hx]
    · simp [hx]
      omega

/-- Claim C3, counterexample: a task whose encoder process exits with
code 1 (probes healthy, no stderr lines) completes with outcome `ok`,
the batch records no error for it, and it is counted as completed — the
exit status is never surfaced. -/
theorem nonzero_exit_reported_nowhere :
    (copy_or_compress_video envExitOne).outcome = Except.ok () ∧
    process_videos [envExitOne] = (1, []) := by decide

/-- Claim C3, amended: after the stream ends the operation waits for
process termination (`communicate()`), but the exit status is ignored:
the whole observable task result is independent of the encoder's exit
code, so a non-zero exit is reported nowhere and, trivially, aborts no
sibling task. -/
theorem exit_code_ignored (env : TaskEnv) (lines : List PyStr) (c₁ c₂ : Int) :
    copy_or_compress_video { env with encoderRun := some (lines, c₁) }
      = copy_or_compress_video { env with encoderRun := some (lines, c₂) } := rfl

/-- Claim C4: with a successfully probed bitrate `b` (in kbps), the task
takes the copy branch when `b ≤ 1000` — in particular at exactly
1000 kbps — and the compress branch when `1000 < b`. -/
theorem bitrate_threshold_decision (env : TaskEnv) (b : ℚ)
    (h : get_video_bitrate env = Except.ok b) :
    (b ≤ 1000 → (copy_or_compress_video env).branch = some Mode.copy) ∧
    (1000 < b → (copy_or_compress_video env).branch = some Mode.compress) := by
  unfold copy_or_compress_video
  rw [h]
  constructor
  · intro hb
    simp [hb]
  · intro hb
    simp [not_le.mpr hb]

/-- Claim C4, witness: a file probed at exactly 1000 kbps is copied and
one probed at 5000 kbps is compressed. -/
theorem bitrate_threshold_decision_witness :
    (copy_or_compress_video envCopy1000).branch = some Mode.copy ∧
    (copy_or_compress_video envCompress5000).branch = some Mode.compress := by
  have h1 : get_video_bitrate envCopy1000 = Except.ok 1000 := by decide
  have h2 : get_video_bitrate envCompress5000 = Except.ok 5000 := by decide
  exact ⟨(bitrate_threshold_decision envCopy1000 1000 h1).1 (by norm_num),
    (bitrate_threshold_decision envCompress5000 5000 h2).2 (by norm_num)⟩

/-- Claim C6: the stderr line `time=00:00:01:50` contains a `time=`
token whose timestamp is malformed, yet it is not silently skipped: the
pattern's unescaped dot matches the third colon, the capture splits
into four pieces, the three-way unpacking raises `ValueError`, the task
fails, and its counter update is skipped.  (With the clearly intended
`\.` the capture would always split into exactly three float-parsable
pieces and the line would be skipped, as the claim states.) -/
theorem sloppy_dot_line_raises :
    lineEffect badTimeLine = LineEffect.raise ∧
    (copy_or_compress_video envBadLine).outcome = Except.error PyErr.valueError ∧
    (copy_or_compress_video envBadLine).deltaCount = 0 := by decide

/-- Claim C7, counterexample: a bitrate probe whose subprocess exits
with code 1 but still prints the numeric value `500000` succeeds with
500 kbps — the probe does not fail whenever the tool exits non-zero,
because the return code is never consulted. -/
theorem probe_ok_despite_nonzero_exit :
    get_video_bitrate envRcOne = Except.ok 500 := by decide

/-- Claim C7, amended: a probe raises exactly when the tool is missing
(`FileNotFoundError`) or its stdout is not a float literal
(`ValueError`); the subprocess return code never influences the result.
Such a failure is confined to its own task: the batch completes the
remaining tasks, merely recording the one error. -/
theorem probe_failure_isolated :
    (∀ (c₁ c₂ : Int) (out : PyStr),
        probeFloat (some (c₁, out)) = probeFloat (some (c₂, out))) ∧
    ∀ (pre post : List TaskEnv) (env : TaskEnv) (e : PyErr),
      get_video_bitrate env = Except.error e →
      process_videos (pre ++ env :: post)
        = ((process_videos pre).1 + (process_videos post).1,
           (process_videos pre).2 ++ e :: (process_videos post).2) := by
  refine ⟨fun c₁ c₂ out => rfl, ?_⟩
  intro pre post env e h
  rw [process_videos_append]
  have hmid : process_videos (env :: post)
      = ((process_videos post).1, e :: (process_videos post).2) := by
    simp [process_videos, task_of_probe_error env e h]
  rw [hmid]

/-- Claim C7, witness: inserting the failing-probe task `envProbeFail`
into an empty batch leaves the completed count untouched and records
exactly its `ValueError`. -/
theorem probe_failure_isolated_witness :
    process_videos ([] ++ envProbeFail :: [])
      = ((process_videos []).1 + (process_videos []).1,
         (process_videos []).2 ++ PyErr.valueError :: (process_videos []).2) :=
  probe_failure_isolated.2 [] [] envProbeFail PyErr.valueError (by decide)

/-- Claim C10: when the bitrate probe raises, the task selects no
conversion branch, launches no encoder subprocess, leaves the shared
counter untouched, and surfaces exactly the probe's exception; at the
batch boundary the exception is caught and recorded while the remaining
tasks are processed unchanged. -/
theorem probe_error_task_inert (env : TaskEnv) (e : PyErr)
    (h : get_video_bitrate env = Except.error e) :
    (copy_or_compress_video env).branch = none ∧
    (copy_or_compress_video env).launched = false ∧
    (copy_or_compress_video env).deltaCount = 0 ∧
    (copy_or_compress_video env).outcome = Except.error e ∧
    ∀ rest : List TaskEnv, process_videos (env :: rest)
      = ((process_videos rest).1, e :: (process_videos rest).2) := by
  have ht := task_of_probe_error env e h
  refine ⟨by rw [ht], by rw [ht], by rw [ht], by rw [ht], ?_⟩
  intro rest
  simp [process_videos, ht]

/-- Claim C10, witness: the concrete failing-probe task `envProbeFail`
launches no encoder and only contributes its error to the batch. -/
theorem probe_error_task_inert_witness :
    (copy_or_compress_video envProbeFail).launched = false ∧
    process_videos [envProbeFail]
      = ((process_videos []).1, PyErr.valueError :: (process_videos []).2) :=
  ⟨(probe_error_task_inert envProbeFail PyErr.valueError (by decide)).2.1,
   (probe_error_task_inert envProbeFail PyErr.valueError (by decide)).2.2.2.2 []⟩

/-- Helper: the derived output name is the input's basename with its
extension stripped, the suffix `_s.mp4` appended, joined onto the
output directory. -/
theorem output_file_eq (output_dir file : PyStr) :
    output_file_for output_dir file
      = pyJoin output_dir (splitextBase (pyBasename file) ++ ("_s.mp4").data) := by
  unfold output_file_for pySplitextFst
  have hy : ∀ c ∈ splitextBase (pyBasename file) ++ ("_s.mp4").data,
      (c != '/') = true := by
    intro c hc
    rcases List.mem_append.mp hc with hc | hc
    · exact splitextBase_nosep (pyBasename file) (pyBasename_nosep file) c hc
    · have hall : ∀ x ∈ ("_s.mp4").data, (x != '/') = true := by decide
      exact hall c hc
  rw [List.append_assoc,
    pyBasename_append_nosep (pyDirpart file) _ hy (pyDirpart_cases file)]

/-- Claim C8: for every scheduled input file, the derived output path is
the output directory joined with the input file's basename stripped of
its extension followed by the suffix `_s.mp4`. -/
theorem output_path_derivation (output_dir file : PyStr) :
    output_file_for output_dir file
      = pyJoin output_dir (splitextBase (pyBasename file) ++ ("_s.mp4").data) :=
  output_file_eq output_dir file

/-- Two inputs in different directories sharing the basename
`x.mp4`. -/
def fileA : PyStr := ("/in/a/x.mp4").data

/-- Second input with the same basename, different directory. -/
def fileB : PyStr := ("/in/b/x.mp4").data

/-- Claim C5, counterexample: two distinct input files whose basenames
coincide are mapped to the same output path, so two tasks of one batch
can target the same output file. -/
theorem duplicate_output_paths :
    output_file_for (("/out").data) fileA = output_file_for (("/out").data) fileB ∧
    fileA ≠ fileB := by decide

/-- Claim C5, amended: the derived output path always differs from the
input path (the output basename carries the extra `_s` inserted before
the normalized `.mp4` extension), but output paths are not pairwise
distinct across a batch: inputs in different directories with equal
basenames collide. -/
theorem output_path_ne_input (output_dir file : PyStr) :
    output_file_for output_dir file ≠ file := by
  intro h
  rw [output_file_eq] at h
  have hy : ∀ c ∈ splitextBase (pyBasename file) ++ ("_s.mp4").data,
      (c != '/') = true := by
    intro c hc
    rcases List.mem_append.mp hc with hc | hc
    · exact splitextBase_nosep (pyBasename file) (pyBasename_nosep file) c hc
    · have hall : ∀ x ∈ ("_s.mp4").data, (x != '/') = true := by decide
      exact hall c hc
  have hbn : pyBasename file
      = splitextBase (pyBasename file) ++ ("_s.mp4").data := by
    have hj := pyBasename_join output_dir
      (splitextBase (pyBasename file) ++ ("_s.mp4").data) hy
    rw [h] at hj
    exact hj
  have hsb : splitextBase (pyBasename file)
      = splitextBase (pyBasename file) ++ ("_s").data := by
    conv =>
      lhs
      rw [hbn]
    exact splitextBase_s_suffix (splitextBase (pyBasename file))
  have hlen := congrArg List.length hsb
  simp [List.length_append] at hlen

/-- Claim C5, witness: the amended inequality at a concrete input. -/
theorem output_path_ne_input_witness :
    output_file_for (("/out").data) fileA ≠ fileA :=
  output_path_ne_input (("/out").data) fileA

/-- Claim C9: file discovery returns exactly the walked filenames whose
names end, case-insensitively, in one of `.mp4`, `.avi`, `.mov`,
`.mkv`, `.ts`, each joined onto its directory. -/
theorem get_all_files_membership (walk : List (PyStr × List PyStr)) (f : PyStr) :
    f ∈ get_all_files walk ↔
      ∃ rd ∈ walk, ∃ name ∈ rd.2, f = pyJoin rd.1 name ∧
        ((".mp4").data <:+ pyLower name ∨ (".avi").data <:+ pyLower name ∨
         (".mov").data <:+ pyLower name ∨ (".mkv").data <:+ pyLower name ∨
         (".ts").data <:+ pyLower name) := by
  unfold get_all_files
  rw [List.mem_flatMap]
  constructor
  · rintro ⟨rd, hrd, hf⟩
    rw [List.mem_map] at hf
    obtain ⟨name, hname, rfl⟩ := hf
    rw [List.mem_filter] at hname
    refine ⟨rd, hrd, name, hname.1, rfl, ?_⟩
    have hx := hname.2
    unfold lowerEndsWithVideoExt videoExtensions at hx
    simpa using hx
  · rintro ⟨rd, hrd, name, hname, rfl, hext⟩
    refine ⟨rd, hrd, List.mem_map.mpr ⟨name, List.mem_filter.mpr ⟨hname, ?_⟩, rfl⟩⟩
    unfold lowerEndsWithVideoExt videoExtensions
    simpa using hext

end VideoDeal
